import Mathlib

/-!
Verification of the pykit configer source-resolution engine
(`src/pykit/configer/__init__.py`) against its specification.

Modelling conventions (shallow embedding):

* Configuration values exchanged between sources and the merge step are the
  inductive `Value` (strings, numbers, booleans, null, arrays, and
  string-keyed mappings).  Python dicts preserve insertion order, so a
  mapping is an association list `List (String × Value)` in insertion order.
* Python string operations are embedded one-to-one over the character list
  of a `String`: `pyLower` (str.lower), `pyLstrip` (str.lstrip, which drops
  leading characters drawn from a character *set*), `pyStartsWith`
  (str.startswith) and `pySplit` (str.split with a one-character separator,
  which keeps empty fields and returns `[""]` on the empty string).
* The process environment (`os.environ.items()`) is a finite enumeration,
  embedded as a `List (String × String)` in enumeration order.
* The filesystem is embedded as the list of paths that exist at composition
  time; `Path.exists()` becomes list membership.  `datapath / f"{name}.json"`
  becomes string concatenation with `"/"`.
* File parsing (json.loads / yaml.safe_load / ConfigParser.read) is outside
  this subsystem per the spec, so a file source receives the already-parsed
  document: a `Value` for JSON/YAML, a section table
  `List (String × List (String × String))` for INI.
-/

namespace Pykit

/-- Configuration values: scalars, arrays and string-keyed mappings.
Mappings are association lists in Python-dict insertion order. -/
inductive Value : Type where
  | str : String → Value
  | num : Int → Value
  | bool : Bool → Value
  | null : Value
  | arr : List Value → Value
  | obj : List (String × Value) → Value
  deriving Repr

/-- Python `str.lower()` (ASCII case mapping, which covers every input the
engine manipulates). -/
def pyLower (s : String) : String :=
  String.mk (s.data.map Char.toLower)

/-- Python `str.lstrip(chars)`: removes *leading characters that occur
anywhere in `chars`* — `chars` is a character set, not a literal string to
remove.  This is exactly what `key.lower().lstrip(self.prefix)` does in
`EnvSettingsSource.__call__`. -/
def pyLstrip (s chars : String) : String :=
  String.mk (s.data.dropWhile (fun c => chars.data.contains c))

/-- Python `str.startswith(pre)`. -/
def pyStartsWith (s pre : String) : Bool :=
  pre.data.isPrefixOf s.data

/-- Helper for `pySplit`: accumulates the current field (reversed). -/
def pySplitAux (d : Char) : List Char → List Char → List (List Char)
  | [], acc => [acc.reverse]
  | c :: cs, acc =>
    if c = d then acc.reverse :: pySplitAux d cs []
    else pySplitAux d cs (c :: acc)

/-- Python `str.split(d)` for a one-character separator `d`: keeps empty
fields, and `"".split(d) = [""]`. -/
def pySplit (s : String) (d : Char) : List String :=
  (pySplitAux d s.data []).map String.mk

/-- Python `part not in cur` for a dict modelled as an association list. -/
def containsKey (cur : List (String × Value)) (k : String) : Bool :=
  cur.any (fun kv => kv.1 == k)

/-- The key-part loop of `EnvSettingsSource.__call__` for one environment
variable, acting on the accumulated dict `cur`:

    for i in range(len(keyparts)):
        part = keyparts[i]
        if part not in cur:
            if i < len(keyparts) - 1:
                cur[part] = dict()
                cur = cur[part]
            else:
                cur[part] = val

When `part` is already a key of `cur`, the loop does nothing for that part
and in particular does *not* descend into the existing entry; `cur` is
re-bound only to a freshly created empty dict, so the remaining parts build
a fresh chain disjoint from the pre-existing entries. -/
def envInsert (cur : List (String × Value)) : List String → String → List (String × Value)
  | [], _ => cur
  | p :: rest, v =>
    if containsKey cur p then envInsert cur rest v
    else
      match rest with
      | [] => cur ++ [(p, Value.str v)]
      | _ :: _ => cur ++ [(p, Value.obj (envInsert [] rest v))]

/-- The body of the `for key, val in os.environ.items()` loop of
`EnvSettingsSource.__call__` for one variable `kv`, with `pfx` the
already-lower-cased configured prefix followed by `"."`:

    if key.lower().startswith(self.prefix):
        envkey = key.lower().lstrip(self.prefix)
        ...
        keyparts = envkey.split(".")
        ...
-/
def envStep (pfx : String) (vals : List (String × Value)) (kv : String × String) :
    List (String × Value) :=
  let lkey := pyLower kv.1
  if pyStartsWith lkey pfx then
    envInsert vals (pySplit (pyLstrip lkey pfx) '.') kv.2
  else vals

/-- `EnvSettingsSource.__call__`: scan the environment enumeration for
variables whose lower-cased name starts with `lower(pfxRaw) ++ "."` (the
prefix computed in `EnvSettingsSource.__init__`), and fold the per-variable
step over the accumulated dict, starting from the empty dict. -/
def EnvSettingsSource.call (pfxRaw : String) (env : List (String × String)) :
    List (String × Value) :=
  env.foldl (envStep (pyLower pfxRaw ++ ".")) []

/-- First-match association-list lookup (Python dict lookup / `.get`). -/
def lookupAssoc {α : Type} : List (String × α) → String → Option α
  | [], _ => none
  | (k2, v) :: rest, k => if k2 = k then some v else lookupAssoc rest k

/-- Follow a key path downward through nested mappings. -/
def getPath : Value → List String → Option Value
  | v, [] => some v
  | Value.obj l, k :: rest =>
    (match lookupAssoc l k with
     | some v => getPath v rest
     | none => none)
  | _, _ :: _ => none

/-- Well-formedness of a value: every mapping level, anywhere in the tree,
has pairwise-distinct keys (it is a genuine mapping). -/
inductive WFVal : Value → Prop where
  | str (s : String) : WFVal (Value.str s)
  | num (n : Int) : WFVal (Value.num n)
  | bool (b : Bool) : WFVal (Value.bool b)
  | null : WFVal Value.null
  | arr (l : List Value) : (∀ v ∈ l, WFVal v) → WFVal (Value.arr l)
  | obj (l : List (String × Value)) :
      (l.map Prod.fst).Nodup → (∀ kv ∈ l, WFVal kv.2) → WFVal (Value.obj l)

/-- The error the specification says a file source raises when the parsed
top-level value is not a mapping.  The source code of the engine contains no
such check (nor any exception of this kind); the embedding keeps the
`Except` contract so that the absence of the check is expressible. -/
inductive SchemaError : Type where
  | notMapping : SchemaError
  deriving Repr, DecidableEq

/-- `JsonSettingsSource.__call__` is `return json.loads(self.path.read_text(encoding))`:
the parsed document (here received already parsed, parsing being outside the
subsystem) is returned unconditionally — no shape inspection, no failure. -/
def JsonSettingsSource.call (doc : Value) : Except SchemaError Value :=
  Except.ok doc

/-- `YamlSettingsSource.__call__` is `return yaml.safe_load(self.path.read_text(encoding))`:
identical contract to the JSON variant — the parsed document is returned
unconditionally. -/
def YamlSettingsSource.call (doc : Value) : Except SchemaError Value :=
  Except.ok doc

/-- `IniSettingsSource.__call__` is
`getattr(parser, "_sections", {}).get("settings", {})`: from the parsed
section table, return the section literally named `settings`, or the empty
mapping when that section is absent. -/
def IniSettingsSource.call (sections : List (String × List (String × String))) :
    List (String × String) :=
  match lookupAssoc sections "settings" with
  | some s => s
  | none => []

/-- The sources handled by `SettingsBase.Config.customise_sources`:
the three pydantic-supplied callables (`init_settings`, `env_settings`,
`file_secret_settings`), the three optional file sources carrying their
resolved paths, and the engine's own `EnvSettingsSource` carrying its
prefix. -/
inductive SourceTag : Type where
  | initS : SourceTag
  | envS : SourceTag
  | secretS : SourceTag
  | jsonS : String → SourceTag
  | iniS : String → SourceTag
  | yamlS : String → SourceTag
  | envCustom : String → SourceTag
  deriving Repr, DecidableEq

/-- Recognises the engine's own `EnvSettingsSource`. -/
def SourceTag.isEnvCustom : SourceTag → Bool
  | .envCustom _ => true
  | _ => false

/-- Candidate filename resolution of `customise_sources`:

    json_file = datapath / f"{name}.json"
    if mode != "":
        json_file = datapath / f"{name}.{mode}.json"

(and identically for `ini` and `yaml`). -/
def fileCandidate (datapath name mode ext : String) : String :=
  if mode ≠ "" then datapath ++ "/" ++ name ++ "." ++ mode ++ "." ++ ext
  else datapath ++ "/" ++ name ++ "." ++ ext

/-- `SettingsBase.Config.customise_sources`, with the closure parameters of
`NewSetting` (`datapath`, `name`, `mode`, `envprefix`) made explicit and the
filesystem state `fs` (the list of paths that exist) passed in.

The Python function accumulates the sources in a Python `set` and returns
`tuple(default_settings)`.  A `set` of objects with default identity
hashing has no specified iteration order, so the returned tuple's order is
not a function of the inputs at all; this embedding records the *insertion
sequence* (all seven possible elements are pairwise distinct, so set
membership coincides with membership in this list, and every
membership-level fact below is faithful).  Order-level facts about the
Python tuple are exactly the ones this representation cannot promise — see
the precedence theorem below. -/
def customise_sources (datapath name mode pfx : String) (fs : List String) :
    List SourceTag :=
  let s0 := [SourceTag.initS, SourceTag.envS, SourceTag.secretS]
  let jf := fileCandidate datapath name mode "json"
  let s1 := if fs.contains jf then s0 ++ [SourceTag.jsonS jf] else s0
  let f2 := fileCandidate datapath name mode "ini"
  let s2 := if fs.contains f2 then s1 ++ [SourceTag.iniS f2] else s1
  let f3 := fileCandidate datapath name mode "yaml"
  let s3 := if fs.contains f3 then s2 ++ [SourceTag.yamlS f3] else s2
  s3 ++ [SourceTag.envCustom pfx]

/-! ## Theorems -/

/-- Membership characterisation of the composed source collection: the three
pydantic callables and the engine's environment source are always present,
and a file tag is present exactly when it carries the resolved candidate
path and that path exists. -/
theorem mem_customise_sources (dp name mode pfx : String) (fs : List String)
    (t : SourceTag) :
    t ∈ customise_sources dp name mode pfx fs ↔
      (t = SourceTag.initS ∨ t = SourceTag.envS ∨ t = SourceTag.secretS ∨
        (t = SourceTag.jsonS (fileCandidate dp name mode "json") ∧
          fileCandidate dp name mode "json" ∈ fs) ∨
        (t = SourceTag.iniS (fileCandidate dp name mode "ini") ∧
          fileCandidate dp name mode "ini" ∈ fs) ∨
        (t = SourceTag.yamlS (fileCandidate dp name mode "yaml") ∧
          fileCandidate dp name mode "yaml" ∈ fs) ∨
        t = SourceTag.envCustom pfx) := by
  unfold customise_sources
  by_cases h1 : fileCandidate dp name mode "json" ∈ fs <;>
    by_cases h2 : fileCandidate dp name mode "ini" ∈ fs <;>
      by_cases h3 : fileCandidate dp name mode "yaml" ∈ fs <;>
        simp [h1, h2, h3]

/-- A moded candidate filename can never coincide with the unmoded one:
the two concatenations have different lengths. -/
theorem fileCandidate_moded_ne_unmoded (dp name mode ext : String) (h : mode ≠ "") :
    fileCandidate dp name mode ext ≠ fileCandidate dp name "" ext := by
  intro he
  unfold fileCandidate at he
  rw [if_pos h, if_neg (by simp : ¬("" : String) ≠ "")] at he
  have hm : 0 < mode.length := by
    cases mode with
    | mk data =>
      cases data with
      | nil => simp at h
      | cons c cs => simp [String.length]
  have hlen := congrArg String.length he
  simp only [String.length_append] at hlen
  omega

/-- C1: the claim states that the SourceSet returned by `customise_sources`
is ordered with the declared precedence — initialization values, then
environment-derived values, then file secret values, then file-derived
values (JSON, INI, YAML).  The Python function accumulates the sources in a
`set` and returns `tuple(default_settings)`, so the returned tuple's order
is the set's hash-dependent iteration order, not a fixed precedence order.
This theorem evaluates the insertion sequence (the only input-determined
order the code contains) at a composition where all three files exist:
even that sequence ends with the engine's own `EnvSettingsSource`, *below*
every file-derived source, contradicting the claimed order which puts
environment-derived values second. -/
theorem customise_sources_env_source_last :
    customise_sources "data" "app" "" "PYKIT"
        ["data/app.json", "data/app.ini", "data/app.yaml"] =
      [SourceTag.initS, SourceTag.envS, SourceTag.secretS,
       SourceTag.jsonS "data/app.json", SourceTag.iniS "data/app.ini",
       SourceTag.yamlS "data/app.yaml", SourceTag.envCustom "PYKIT"] := by
  rfl

/-- C2: the claim states that sibling variables `PYKIT.DB.HOST` and
`PYKIT.DB.PORT` both end up nested under the same `db` sub-mapping.  The
key-part loop never descends into an *existing* entry (`cur = cur[part]`
only runs in the branch that has just created a fresh dict), so the second
variable skips the existing `db` entry and drops its leaf at the top level:
the result is `{db: {host: "h"}, port: "p"}`, not `{db: {host: "h",
port: "p"}}`. -/
theorem env_sibling_leaf_not_nested :
    EnvSettingsSource.call "PYKIT" [("PYKIT.DB.HOST", "h"), ("PYKIT.DB.PORT", "p")] =
      [("db", Value.obj [("host", Value.str "h")]), ("port", Value.str "p")] := by
  rfl

/-- C3: the claim states the key path is the lower-cased variable name with
the prefix-plus-delimiter removed from the front and nothing more.  The code
uses `str.lstrip(self.prefix)`, which strips *every* leading character drawn
from the prefix's character set: for the variable `PYKIT.TOKEN` with
configured prefix `PYKIT`, the characters `t` and `o` of `token` are eaten
(`t` is in the set, then stops at `o` after also eating the leading `t`),
producing the key `oken` instead of `token`. -/
theorem env_lstrip_mangles_key :
    EnvSettingsSource.call "PYKIT" [("PYKIT.TOKEN", "x")] =
      [("oken", Value.str "x")] := by
  rfl

/-- C5: the claim states that for `PYKIT.A=1` enumerated before
`PYKIT.A.B=2`, the later colliding variable is dropped entirely — recorded
nowhere in the result.  In the code, the walk for the second variable skips
the existing non-mapping entry at `a` *without descending or stopping*, so
its last part `b` is assigned at the top level: the result is
`{a: "1", b: "2"}`, and the value `"2"` is recorded at top-level key `b`. -/
theorem env_collision_value_leaks :
    EnvSettingsSource.call "PYKIT" [("PYKIT.A", "1"), ("PYKIT.A.B", "2")] =
      [("a", Value.str "1"), ("b", Value.str "2")] := by
  rfl

/-- C4 (counterexample): the claim states that a parsed top-level value
that is not a mapping makes `produce()` fail with `SchemaError` rather than
return the non-mapping value.  The JSON and YAML sources return the parsed
document unconditionally — a top-level JSON array and a top-level YAML
scalar are returned as-is, and no error is ever produced. -/
theorem file_source_nonmapping_not_rejected :
    JsonSettingsSource.call (Value.arr [Value.str "x"]) =
        Except.ok (Value.arr [Value.str "x"]) ∧
      YamlSettingsSource.call (Value.str "scalar") =
        Except.ok (Value.str "scalar") :=
  ⟨rfl, rfl⟩

/-- C4 (amended): for every parsed JSON or YAML document, `produce()`
returns exactly the parsed top-level value unchanged and never fails — in
particular a top-level mapping is returned unchanged (round-trip fidelity),
and a non-mapping top-level value is returned as-is instead of being
rejected with `SchemaError`. -/
theorem file_sources_return_parsed_value (doc : Value) :
    JsonSettingsSource.call doc = Except.ok doc ∧
      YamlSettingsSource.call doc = Except.ok doc :=
  ⟨rfl, rfl⟩

/-- C6: for every file format, composition with `mode = ""` checks and can
select only the candidate `{name}.{ext}`, and composition with a non-empty
mode checks and can select only `{name}.{mode}.{ext}`; the unmoded and the
moded candidate are never both selected in the same composition (with a
non-empty mode the unmoded candidate's source is never a member at all —
the two candidate filenames can never coincide). -/
theorem candidate_mode_exclusive (dp name mode pfx : String) (fs : List String) :
    (∀ p, SourceTag.jsonS p ∈ customise_sources dp name mode pfx fs →
        p = fileCandidate dp name mode "json") ∧
    (∀ p, SourceTag.iniS p ∈ customise_sources dp name mode pfx fs →
        p = fileCandidate dp name mode "ini") ∧
    (∀ p, SourceTag.yamlS p ∈ customise_sources dp name mode pfx fs →
        p = fileCandidate dp name mode "yaml") ∧
    (∀ ext, fileCandidate dp name "" ext = dp ++ "/" ++ name ++ "." ++ ext) ∧
    (mode ≠ "" → ∀ ext, fileCandidate dp name mode ext =
        dp ++ "/" ++ name ++ "." ++ mode ++ "." ++ ext) ∧
    (mode ≠ "" →
      SourceTag.jsonS (fileCandidate dp name "" "json") ∉
          customise_sources dp name mode pfx fs ∧
        SourceTag.iniS (fileCandidate dp name "" "ini") ∉
          customise_sources dp name mode pfx fs ∧
        SourceTag.yamlS (fileCandidate dp name "" "yaml") ∉
          customise_sources dp name mode pfx fs) := by
  refine ⟨?_, ?_, ?_, ?_, ?_, ?_⟩
  · intro p hp
    rw [mem_customise_sources] at hp
    exact (by simpa using hp : _ ∧ _).1
  · intro p hp
    rw [mem_customise_sources] at hp
    exact (by simpa using hp : _ ∧ _).1
  · intro p hp
    rw [mem_customise_sources] at hp
    exact (by simpa using hp : _ ∧ _).1
  · intro ext
    simp [fileCandidate]
  · intro h ext
    simp [fileCandidate, h]
  · intro h
    refine ⟨fun hmem => ?_, fun hmem => ?_, fun hmem => ?_⟩ <;>
      rw [mem_customise_sources] at hmem <;>
        simp at hmem <;>
          exact fileCandidate_moded_ne_unmoded dp name mode _ h hmem.1.symm

/-- C6 witness: with mode `prod`, the unmoded candidate `data/app.json` is
not a member of the composition even when it is the only file on disk, and
the moded candidate names resolve as claimed. -/
theorem candidate_mode_exclusive_witness :
    SourceTag.jsonS (fileCandidate "data" "app" "" "json") ∉
        customise_sources "data" "app" "prod" "PYKIT" ["data/app.json"] ∧
      fileCandidate "data" "app" "prod" "json" = "data/app.prod.json" :=
  ⟨((candidate_mode_exclusive "data" "app" "prod" "PYKIT" ["data/app.json"]).2.2.2.2.2
      (by decide)).1,
    ((candidate_mode_exclusive "data" "app" "prod" "PYKIT" ["data/app.json"]).2.2.2.2.1
      (by decide) "json").trans (by rfl)⟩

/-- C7: a file-based source of a given format is a member of the composed
source collection exactly when its resolved candidate path exists on disk
at composition time, and exactly one of the engine's own
`EnvSettingsSource` is always a member, whatever the mode and whichever
files exist. -/
theorem customise_sources_membership (dp name mode pfx : String) (fs : List String) :
    (SourceTag.jsonS (fileCandidate dp name mode "json") ∈
        customise_sources dp name mode pfx fs ↔
      fileCandidate dp name mode "json" ∈ fs) ∧
    (SourceTag.iniS (fileCandidate dp name mode "ini") ∈
        customise_sources dp name mode pfx fs ↔
      fileCandidate dp name mode "ini" ∈ fs) ∧
    (SourceTag.yamlS (fileCandidate dp name mode "yaml") ∈
        customise_sources dp name mode pfx fs ↔
      fileCandidate dp name mode "yaml" ∈ fs) ∧
    (customise_sources dp name mode pfx fs).countP
        (fun t => SourceTag.isEnvCustom t) = 1 := by
  refine ⟨?_, ?_, ?_, ?_⟩
  · rw [mem_customise_sources]; simp
  · rw [mem_customise_sources]; simp
  · rw [mem_customise_sources]; simp
  · unfold customise_sources
    by_cases h1 : fileCandidate dp name mode "json" ∈ fs <;>
      by_cases h2 : fileCandidate dp name mode "ini" ∈ fs <;>
        by_cases h3 : fileCandidate dp name mode "yaml" ∈ fs <;>
          simp [h1, h2, h3, List.countP_append, List.countP_cons,
            SourceTag.isEnvCustom]

/-- C8: `IniSettingsSource.__call__` returns the empty mapping when the
parsed INI file has no section literally named `settings`, and returns
exactly that section's flat string-to-string mapping when it is present,
ignoring every other section. -/
theorem ini_settings_section (secs : List (String × List (String × String))) :
    (lookupAssoc secs "settings" = none → IniSettingsSource.call secs = []) ∧
      (∀ s, lookupAssoc secs "settings" = some s → IniSettingsSource.call secs = s) := by
  constructor
  · intro h
    simp [IniSettingsSource.call, h]
  · intro s h
    simp [IniSettingsSource.call, h]

/-- C8 witness: a file whose only section is `other` yields the empty
mapping, and a file with an `other` section and a `settings` section yields
exactly the `settings` section. -/
theorem ini_settings_section_witness :
    IniSettingsSource.call [("other", [("a", "b")])] = [] ∧
      IniSettingsSource.call [("other", [("a", "b")]), ("settings", [("k", "v")])] =
        [("k", "v")] :=
  ⟨(ini_settings_section [("other", [("a", "b")])]).1 (by rfl),
    (ini_settings_section [("other", [("a", "b")]), ("settings", [("k", "v")])]).2
      [("k", "v")] (by rfl)⟩

/-- Appending entries on the right preserves a successful lookup. -/
theorem lookupAssoc_append_of_some {α : Type} (l ext : List (String × α))
    (k : String) (v : α) (h : lookupAssoc l k = some v) :
    lookupAssoc (l ++ ext) k = some v := by
  induction l with
  | nil => simp [lookupAssoc] at h
  | cons kv rest ih =>
    obtain ⟨k2, v2⟩ := kv
    by_cases hk : k2 = k
    · simp only [lookupAssoc, List.cons_append, if_pos hk] at h ⊢
      exact h
    · simp only [lookupAssoc, List.cons_append, if_neg hk] at h ⊢
      exact ih h

/-- A successful string-leaf lookup survives appending entries at the top
level of the mapping. -/
theorem getPath_append_of_some (cur ext : List (String × Value))
    (path : List String) (v0 : String)
    (h : getPath (Value.obj cur) path = some (Value.str v0)) :
    getPath (Value.obj (cur ++ ext)) path = some (Value.str v0) := by
  cases path with
  | nil => simp [getPath] at h
  | cons k rest =>
    simp only [getPath] at h ⊢
    cases hl : lookupAssoc cur k with
    | none => rw [hl] at h; simp at h
    | some v =>
      rw [hl] at h
      rw [lookupAssoc_append_of_some cur ext k v hl]
      exact h

/-- One full key-part walk only appends fresh entries at the top level of
the accumulated dict: it never rewrites or removes an existing entry
(because every write is guarded by `if part not in cur`, and the walk
re-binds `cur` only to freshly created dicts). -/
theorem envInsert_eq_append (parts : List String) (v : String) :
    ∀ cur, ∃ ext, envInsert cur parts v = cur ++ ext := by
  induction parts with
  | nil => exact fun cur => ⟨[], by simp [envInsert]⟩
  | cons p rest ih =>
    intro cur
    cases hc : containsKey cur p with
    | true =>
      obtain ⟨ext, he⟩ := ih cur
      exact ⟨ext, by simp [envInsert, hc, he]⟩
    | false =>
      cases rest with
      | nil => exact ⟨[(p, Value.str v)], by simp [envInsert, hc]⟩
      | cons q qs =>
        exact ⟨[(p, Value.obj (envInsert [] (q :: qs) v))], by simp [envInsert, hc]⟩

/-- Processing one environment variable only appends at the top level. -/
theorem envStep_eq_append (pfx : String) (vals : List (String × Value))
    (kv : String × String) : ∃ ext, envStep pfx vals kv = vals ++ ext := by
  unfold envStep
  cases hs : pyStartsWith (pyLower kv.1) pfx with
  | true =>
    obtain ⟨ext, he⟩ := envInsert_eq_append (pySplit (pyLstrip (pyLower kv.1) pfx) '.') kv.2 vals
    exact ⟨ext, by simp [hs, he]⟩
  | false => exact ⟨[], by simp [hs]⟩

/-- A string leaf present in the accumulated dict survives folding any
further environment variables. -/
theorem foldl_envStep_persists (pfx : String) (env2 : List (String × String))
    (path : List String) (v0 : String) :
    ∀ cur, getPath (Value.obj cur) path = some (Value.str v0) →
      getPath (Value.obj (env2.foldl (envStep pfx) cur)) path = some (Value.str v0) := by
  induction env2 with
  | nil => intro cur h; simpa using h
  | cons kv rest ih =>
    intro cur h
    simp only [List.foldl_cons]
    apply ih
    obtain ⟨ext, he⟩ := envStep_eq_append pfx cur kv
    rw [he]
    exact getPath_append_of_some cur ext path v0 h

/-- C10: when two environment variables map to the same full key path, the
first-enumerated one wins: a string leaf already produced from a first
portion of the environment enumeration is never overwritten by any
later-enumerated variables — whatever their names, depths or collisions.
In particular, for an exact duplicate leaf (the same variable name in two
spellings), the value of the first-enumerated variable is kept. -/
theorem env_leaf_first_seen_persists (pfxRaw : String)
    (env1 env2 : List (String × String)) (path : List String) (v0 : String)
    (h : getPath (Value.obj (EnvSettingsSource.call pfxRaw env1)) path =
      some (Value.str v0)) :
    getPath (Value.obj (EnvSettingsSource.call pfxRaw (env1 ++ env2))) path =
      some (Value.str v0) := by
  unfold EnvSettingsSource.call at h ⊢
  rw [List.foldl_append]
  exact foldl_envStep_persists _ env2 path v0 _ h

/-- C10 witness: `PYKIT.A.B=1` enumerated before its duplicate spelling
`pykit.a.b=2` leaves the leaf at path `a.b` holding `"1"`. -/
theorem env_leaf_first_seen_persists_witness :
    getPath (Value.obj (EnvSettingsSource.call "PYKIT"
        ([("PYKIT.A.B", "1")] ++ [("pykit.a.b", "2")]))) ["a", "b"] =
      some (Value.str "1") :=
  env_leaf_first_seen_persists "PYKIT" [("PYKIT.A.B", "1")] [("pykit.a.b", "2")]
    ["a", "b"] "1" (by rfl)

/-- `part not in cur` in Boolean form, related to the key list. -/
theorem containsKey_eq_false_iff (cur : List (String × Value)) (k : String) :
    containsKey cur k = false ↔ k ∉ cur.map Prod.fst := by
  simp [containsKey, List.any_eq_false, List.mem_map]
  constructor
  · intro h x hx
    exact h k x hx rfl
  · intro h a b hab ha
    subst ha
    exact h b hab

/-- The key-part walk preserves well-formedness: every entry it adds has a
key fresh at its level, and every sub-mapping it creates is a fresh chain. -/
theorem wf_envInsert (parts : List String) (v : String) :
    ∀ cur, WFVal (Value.obj cur) → WFVal (Value.obj (envInsert cur parts v)) := by
  induction parts with
  | nil => intro cur h; simpa [envInsert] using h
  | cons p rest ih =>
    intro cur h
    cases hc : containsKey cur p with
    | true =>
      rw [show envInsert cur (p :: rest) v = envInsert cur rest v by
        simp [envInsert, hc]]
      exact ih cur h
    | false =>
      have hp : p ∉ cur.map Prod.fst := (containsKey_eq_false_iff cur p).mp hc
      cases h with
      | obj _ hnd hvals =>
        cases rest with
        | nil =>
          rw [show envInsert cur [p] v = cur ++ [(p, Value.str v)] by
            simp [envInsert, hc]]
          refine WFVal.obj _ ?_ ?_
          · rw [List.map_append]
            simp [List.nodup_append, hnd, hp]
          · intro kv hkv
            rcases List.mem_append.mp hkv with h1 | h1
            · exact hvals kv h1
            · simp only [List.mem_singleton] at h1
              subst h1
              exact WFVal.str v
        | cons q qs =>
          rw [show envInsert cur (p :: q :: qs) v =
              cur ++ [(p, Value.obj (envInsert [] (q :: qs) v))] by
            simp [envInsert, hc]]
          refine WFVal.obj _ ?_ ?_
          · rw [List.map_append]
            simp [List.nodup_append, hnd, hp]
          · intro kv hkv
            rcases List.mem_append.mp hkv with h1 | h1
            · exact hvals kv h1
            · simp only [List.mem_singleton] at h1
              subst h1
              exact ih [] (WFVal.obj [] (by simp) (by simp))

/-- Processing one environment variable preserves well-formedness. -/
theorem wf_envStep (pfx : String) (vals : List (String × Value))
    (kv : String × String) (h : WFVal (Value.obj vals)) :
    WFVal (Value.obj (envStep pfx vals kv)) := by
  unfold envStep
  cases hs : pyStartsWith (pyLower kv.1) pfx with
  | true =>
    simpa [hs] using wf_envInsert (pySplit (pyLstrip (pyLower kv.1) pfx) '.') kv.2 vals h
  | false => simpa [hs] using h

/-- Folding the per-variable step preserves well-formedness. -/
theorem wf_foldl_envStep (pfx : String) (env : List (String × String)) :
    ∀ cur, WFVal (Value.obj cur) →
      WFVal (Value.obj (env.foldl (envStep pfx) cur)) := by
  induction env with
  | nil => intro cur h; simpa using h
  | cons kv rest ih =>
    intro cur h
    simp only [List.foldl_cons]
    exact ih _ (wf_envStep pfx cur kv h)

/-- C9: `EnvSettingsSource.__call__` is total — for every environment
enumeration (any finite list of string-to-string entries, whatever the
variable names, delimiter placements or values) and every configured
prefix, it returns a mapping: the embedding is a total function, and the
returned value is a well-formed mapping (pairwise-distinct keys at every
nesting level), never a structural failure. -/
theorem envCall_total_wellformed (pfxRaw : String) (env : List (String × String)) :
    WFVal (Value.obj (EnvSettingsSource.call pfxRaw env)) := by
  unfold EnvSettingsSource.call
  exact wf_foldl_envStep _ env [] (WFVal.obj [] (by simp) (by simp))

end Pykit
